import Mathlib

set_option maxHeartbeats 1000000
set_option maxRecDepth 10000

/-!
Verification development for the brilliant-moves tree-feature pipeline.

The definitions below are a shallow embedding of the feature-extraction code
in `brilliant_moves_clf/shared/utility.py`: search-tree graphs become explicit
node/edge lists, the `networkx` reachability and shortest-path queries become
fuel-bounded closure computations, the successor-classification loop of
`get_subtree_data` becomes an explicit fold over the successor list, and the
fallible attribute lookups (`KeyError` on a missing `P`/`move`/node) become
`Option`-returning functions.  Engine statistics `Q`/`P` are modelled as
rationals and the float vectors produced by `feature_transform` as reals
(`np.std` takes a square root).
-/

/-- A search-tree node: visit count `N`, value `Q`, optional prior `P` and
optional `move` attribute (absent on the root). -/
structure GNode where
  N : ℕ
  Q : ℚ
  P : Option ℚ
  move : Option String
deriving DecidableEq

/-- A directed search-tree graph: association list of node ids to attributes,
plus a directed edge list (edge order is the successor iteration order). -/
structure Graph where
  nodes : List (ℕ × GNode)
  edges : List (ℕ × ℕ)
deriving DecidableEq

/-- Attribute lookup `G.nodes[i]`; `none` models a `KeyError`. -/
def Graph.node? (G : Graph) (i : ℕ) : Option GNode :=
  (G.nodes.find? (fun p => p.1 == i)).map Prod.snd

/-- `G.successors(i)` in edge-list order. -/
def succs (G : Graph) (i : ℕ) : List ℕ :=
  (G.edges.filter (fun e => e.1 == i)).map Prod.snd

/-- `G.out_degree(i)`. -/
def out_degree (G : Graph) (i : ℕ) : ℕ :=
  (G.edges.filter (fun e => e.1 == i)).length

/-- `G.in_degree(i)`. -/
def in_degree (G : Graph) (i : ℕ) : ℕ :=
  (G.edges.filter (fun e => e.2 == i)).length

/-- One expansion step of the reachability closure. -/
def stepReach (G : Graph) (s : Finset ℕ) : Finset ℕ :=
  s ∪ s.biUnion (fun v => (succs G v).toFinset)

/-- Nodes reachable from `root` along at most `k` edges. -/
def reachAt (G : Graph) (root : ℕ) : ℕ → Finset ℕ
  | 0 => {root}
  | k + 1 => stepReach G (reachAt G root k)

/-- Enough closure steps to saturate any graph: every reachable non-root node
is the target of some edge, so shortest paths have length at most `|edges|`. -/
def graphFuel (G : Graph) : ℕ := G.edges.length + 1

/-- All nodes reachable from `root` (including `root`); the node set that
`nx.shortest_path_length(G, root)` enumerates. -/
def reachable (G : Graph) (root : ℕ) : Finset ℕ :=
  reachAt G root (graphFuel G)

/-- Shortest-path distance (in edges) from `root` to `v`: the least `k` with
`v` reachable within `k` steps; `none` when `v` is unreachable. -/
def distTo (G : Graph) (root v : ℕ) : Option ℕ :=
  (List.range (graphFuel G + 1)).find? (fun k => decide (v ∈ reachAt G root k))

/-- `width[d]`: the number of nodes at shortest-path distance exactly `d`. -/
def widthAt (G : Graph) (root d : ℕ) : ℕ :=
  ((reachable G root).filter (fun v => distTo G root v = some d)).card

/-- The depths that occur in the width profile (the keys of the `width` dict). -/
def depthsPresent (G : Graph) (root : ℕ) : List ℕ :=
  (List.range (graphFuel G + 1)).filter (fun d => 0 < widthAt G root d)

/-- Maximum depth occurring in the width profile. -/
def heightNat (G : Graph) (root : ℕ) : ℕ :=
  (depthsPresent G root).foldl max 0

/-- `height = max(width.keys())`, with the `except` branch yielding `-1` when
the width profile is empty. -/
def heightZ (G : Graph) (root : ℕ) : ℤ :=
  match depthsPresent G root with
  | [] => -1
  | _ :: _ => (heightNat G root : ℤ)

/-- `list(width.values())`: per-depth node counts in depth order. -/
def widthList (G : Graph) (root : ℕ) : List ℕ :=
  (List.range (heightNat G root + 1)).map (widthAt G root)

/-- `nx.descendants(G, root)`: nodes reachable from `root`, excluding `root`. -/
def gDescendants (G : Graph) (root : ℕ) : Finset ℕ :=
  (reachable G root).erase root

/-- Number of leaves among the descendants (out-degree 0, in-degree 1). -/
def leavesCount (G : Graph) (root : ℕ) : ℕ :=
  ((gDescendants G root).filter (fun x => out_degree G x = 0 ∧ in_degree G x = 1)).card

/-- Branching factor `(|descendants| - 1) / |leaves|`, `-1` on the caught
`ZeroDivisionError` when there are no leaves. -/
def bfVal (G : Graph) (root : ℕ) : ℚ :=
  if leavesCount G root = 0 then -1
  else (((gDescendants G root).card : ℚ) - 1) / (leavesCount G root : ℚ)

/-- Mutable state of the successor loop in `get_subtree_data`. -/
structure LoopState where
  improving_moves : List ℕ
  adv_moves : List ℕ
  losing_moves : List ℕ
  disadv_moves : List ℕ
  move_node : Option ℕ
  max_Q : ℚ
  max_P : ℚ
  max_N : ℕ
deriving DecidableEq

/-- Initial loop state (`max_Q = -1`, `max_P = 0`, `max_N = 0`). -/
def initLoopState : LoopState :=
  { improving_moves := [], adv_moves := [], losing_moves := [], disadv_moves := []
    move_node := none, max_Q := -1, max_P := 0, max_N := 0 }

/-- One iteration of the successor loop: read `N`, `Q`, `P`, `move` (failing
like the Python `KeyError` when `P` or `move` is absent), update the running
maxima, then either record the move-of-interest node or classify the child. -/
def loopStep (G : Graph) (uci : String) (rootQ : ℚ) (st : LoopState) (i : ℕ) :
    Option LoopState :=
  match G.node? i with
  | none => none
  | some n =>
    match n.P, n.move with
    | some p, some mv =>
      let st1 : LoopState :=
        { st with
          max_N := if n.N > st.max_N then n.N else st.max_N
          max_Q := if n.Q > st.max_Q then n.Q else st.max_Q
          max_P := if p > st.max_P then p else st.max_P }
      if mv = uci then
        some { st1 with move_node := some i }
      else
        some { st1 with
          improving_moves :=
            if n.Q - (-rootQ) > 0 then st1.improving_moves ++ [i] else st1.improving_moves
          losing_moves :=
            if n.Q - (-rootQ) > 0 then st1.losing_moves else st1.losing_moves ++ [i]
          adv_moves :=
            if n.Q > 0 then st1.adv_moves ++ [i] else st1.adv_moves
          disadv_moves :=
            if n.Q > 0 then st1.disadv_moves else st1.disadv_moves ++ [i] }
    | _, _ => none

/-- The successor loop of `get_subtree_data`, iterating in successor order. -/
def loopGo (G : Graph) (uci : String) (rootQ : ℚ) : List ℕ → LoopState → Option LoopState
  | [], st => some st
  | i :: rest, st =>
    match loopStep G uci rootQ st i with
    | none => none
    | some st1 => loopGo G uci rootQ rest st1

/-- The result record of `get_subtree_data`. -/
structure SubtreeData where
  improving_moves : List ℕ
  adv_moves : List ℕ
  losing_moves : List ℕ
  disadv_moves : List ℕ
  move_node : Option ℕ
  max_Q : ℚ
  max_P : ℚ
  max_N : ℕ
  root_Q : ℚ
  root_P : ℚ
  root_N : ℚ
  bf : ℚ
  width : List ℕ
  height : ℤ
  move_is_best : Bool
deriving DecidableEq

/-- Assemble the returned record from the loop state and graph statistics. -/
def mkData (G : Graph) (root : ℕ) (rn : GNode) (st : LoopState) (b : Bool) : SubtreeData :=
  { improving_moves := st.improving_moves, adv_moves := st.adv_moves
    losing_moves := st.losing_moves, disadv_moves := st.disadv_moves
    move_node := st.move_node, max_Q := st.max_Q, max_P := st.max_P, max_N := st.max_N
    root_Q := rn.Q, root_P := rn.P.getD 0, root_N := (rn.N : ℚ)
    bf := bfVal G root, width := widthList G root, height := heightZ G root
    move_is_best := b }

/-- Shallow embedding of `get_subtree_data(G, uci, root)`: read the root's
`Q`/`P`/`N` (with `P` defaulting to 0 on the caught exception), run the
successor loop, compute `move_is_best` by re-reading the recorded node's `Q`,
and attach branching factor, width profile and height. -/
def get_subtree_data (G : Graph) (uci : String) (root : ℕ) : Option SubtreeData :=
  match G.node? root with
  | none => none
  | some rn =>
    match loopGo G uci rn.Q (succs G root) initLoopState with
    | none => none
    | some st =>
      match st.move_node with
      | none => some (mkData G root rn st false)
      | some m =>
        match G.node? m with
        | none => none
        | some nm => some (mkData G root rn st (decide (st.max_Q ≤ nm.Q)))

/-- Shallow embedding of `index_flat(weight, tree, index, subtree, agg)`:
the flat-offset addressing function for the 3980-length feature vector. -/
def index_flat (weight tree index : ℕ) (subtree : Option ℕ) (agg : ℕ) : ℕ :=
  let base := weight * (5 * (22 * 18 + 2)) + tree * (22 * 18 + 2)
  match subtree with
  | none => base + index
  | some st =>
    if st < 2 then base + 2 + 22 * st + index
    else base + 2 + 22 * 2 + 22 * 4 * (st - 2) + agg * 22 + index

/-- One valid argument combination of the Feature Indexer. -/
structure IndexerArgs where
  weight : ℕ
  tree : ℕ
  subtree : Option ℕ
  agg : ℕ
  index : ℕ

/-- The valid argument combinations for one (weight, tree-size) pair: either a
direct index 0..1 (no subtree), a subtree 0..1 with feature index 0..21, or a
subtree 2..5 with aggregation 0..3 and feature index 0..21. -/
def blockArgs (w t : ℕ) : List IndexerArgs :=
  ((List.range 2).map fun i => ⟨w, t, none, 0, i⟩) ++
  ((List.range 2).flatMap fun s =>
    (List.range 22).map fun i => ⟨w, t, some s, 0, i⟩) ++
  ((List.range 4).flatMap fun s =>
    (List.range 4).flatMap fun a =>
      (List.range 22).map fun i => ⟨w, t, some (s + 2), a, i⟩)

/-- Every valid argument combination: weight 0..1, tree 0..4, and the
per-block combinations of `blockArgs`. -/
def validIndexerArgs : List IndexerArgs :=
  (List.range 2).flatMap fun w => (List.range 5).flatMap fun t => blockArgs w t

/-- The offset computed for one argument combination. -/
def offs (a : IndexerArgs) : ℕ :=
  index_flat a.weight a.tree a.index a.subtree a.agg

/-- The offsets computed for all valid Feature Indexer argument combinations. -/
def allOffsets : List ℕ := validIndexerArgs.map offs

/-- The width list zero-padded to length 8 (`widths += [0]*(8-len(widths))`),
cast to the float feature domain. -/
def paddedWidths (w : List ℕ) : List ℝ :=
  w.map (fun n : ℕ => (n : ℝ)) ++ List.replicate (8 - w.length) 0

/-- `np.mean` of a list of floats. -/
noncomputable def npMean (l : List ℝ) : ℝ := l.sum / l.length

/-- `np.std` of a list of floats (population standard deviation). -/
noncomputable def npStd (l : List ℝ) : ℝ :=
  Real.sqrt (npMean (l.map (fun x => (x - npMean l) ^ 2)))

/-- `np.max` of a nonempty list of floats. -/
def npMax (l : List ℝ) : ℝ :=
  match l with
  | [] => 0
  | x :: xs => xs.foldl max x

/-- `np.min` of a nonempty list of floats. -/
def npMin (l : List ℝ) : ℝ :=
  match l with
  | [] => 0
  | x :: xs => xs.foldl min x

/-- Shallow embedding of `feature_transform(subtree_data)`: the 22-length
feature vector, built in the order the code appends its pieces. -/
noncomputable def feature_transform (d : SubtreeData) : List ℝ :=
  ([d.improving_moves, d.adv_moves, d.losing_moves, d.disadv_moves].map
    (fun l => (l.length : ℝ)))
  ++ [(d.max_Q : ℝ), (d.max_P : ℝ), (d.max_N : ℝ),
      (d.root_Q : ℝ), (d.root_P : ℝ), (d.root_N : ℝ), (d.bf : ℝ)]
  ++ (((paddedWidths d.width).drop 1).take 7
      ++ [npMean (paddedWidths d.width), npStd (paddedWidths d.width),
          npMax (paddedWidths d.width)])
  ++ [(d.height : ℝ)]

/-- The feature order as the specification lists it, with the maxima slots in
the order the code actually produces (`max_Q`, `max_P`, `max_N` at positions
4, 5, 6): lengths of the four move subsets, the three maxima, the root's
`Q`/`P`/`N`, the branching factor, widths of depths 1-7 (the width list is
zero-padded to length 8, depth 0 included, before slicing), mean, standard
deviation and max of the padded width list, and the height. -/
noncomputable def featureOrderListed (d : SubtreeData) : List ℝ :=
  [(d.improving_moves.length : ℝ), (d.adv_moves.length : ℝ),
   (d.losing_moves.length : ℝ), (d.disadv_moves.length : ℝ),
   (d.max_Q : ℝ), (d.max_P : ℝ), (d.max_N : ℝ),
   (d.root_Q : ℝ), (d.root_P : ℝ), (d.root_N : ℝ), (d.bf : ℝ)]
  ++ ((paddedWidths d.width).drop 1).take 7
  ++ [npMean (paddedWidths d.width), npStd (paddedWidths d.width),
      npMax (paddedWidths d.width), (d.height : ℝ)]

/-- The `defaults` sentinel tuple of `parse_trees`:
`(0,)*4 + (-1,) + (0,)*2 + (-1,) + (0,)*3 + (0,)*10 + (0,)`. -/
def defaults : List ℝ :=
  List.replicate 4 0 ++ [-1] ++ List.replicate 2 0 ++ [-1]
  ++ List.replicate 3 0 ++ List.replicate 10 0 ++ [0]

/-- The per-tree extraction bundle produced by `get_data`: the parent
extraction, the optional move-of-interest extraction, and one extraction per
member of each of the four move subsets. -/
structure TreeData where
  parent : SubtreeData
  moi : Option SubtreeData
  impD : List SubtreeData
  advD : List SubtreeData
  loseD : List SubtreeData
  disD : List SubtreeData
deriving DecidableEq

/-- Extract one subtree per member of a move subset. -/
def extractSubset (G : Graph) (uci : String) (ids : List ℕ) : Option (List SubtreeData) :=
  ids.mapM (fun i => get_subtree_data G uci i)

/-- Shallow embedding of `get_data(G, uci)`: extract the parent subtree at
root 0, the move-of-interest subtree when that move was found, and the
subtrees rooted at each member of the four move subsets. -/
def get_data (G : Graph) (uci : String) : Option TreeData :=
  match get_subtree_data G uci 0 with
  | none => none
  | some parent =>
    match
      (match parent.move_node with
       | none => some none
       | some m =>
         match get_subtree_data G uci m with
         | none => none
         | some d => some (some d)) with
    | none => none
    | some moi =>
      match extractSubset G uci parent.improving_moves,
            extractSubset G uci parent.adv_moves,
            extractSubset G uci parent.losing_moves,
            extractSubset G uci parent.disadv_moves with
      | some a, some b, some c, some d => some ⟨parent, moi, a, b, c, d⟩
      | _, _, _, _ => none

/-- Elementwise column aggregation of 22-length feature vectors
(`np.mean/std/max/min` with `axis=0`). -/
noncomputable def aggBy (f : List ℝ → ℝ) (vs : List (List ℝ)) : List ℝ :=
  (List.range 22).map (fun j => f (vs.map (fun v => v.getD j 0)))

/-- The four aggregation blocks for one move subset: for an empty subset the
sentinel `defaults` repeated four times, otherwise mean/std/max/min across
the transformed vectors of the subset's subtrees. -/
noncomputable def subsetBlocks (ds : List SubtreeData) : List (List ℝ) :=
  match ds with
  | [] => [defaults, defaults, defaults, defaults]
  | _ :: _ =>
    let fs := ds.map feature_transform
    [aggBy npMean fs, aggBy npStd fs, aggBy npMax fs, aggBy npMin fs]

/-- The move-of-interest feature block: transformed features when the move was
found in the tree, the sentinel `defaults` otherwise. -/
noncomputable def moiBlock : Option SubtreeData → List ℝ
  | some d => feature_transform d
  | none => defaults

/-- The per-tree feature assembly of `parse_trees` (lines 228-247): the two
presence flags and the 18 feature blocks in layout order. -/
noncomputable def treeBlocks (G : Graph) (uci : String) :
    Option (Bool × Bool × List (List ℝ)) :=
  match get_data G uci with
  | none => none
  | some t =>
    some (t.parent.move_node.isSome, t.parent.move_is_best,
      [feature_transform t.parent, moiBlock t.moi]
      ++ subsetBlocks t.impD ++ subsetBlocks t.advD
      ++ subsetBlocks t.loseD ++ subsetBlocks t.disD)

/-- The flat 398-length per-tree segment appended to the move's feature row
(`X[-1].append` of the two flags, then `X[-1].extend` of each block). -/
noncomputable def treeFeaturesFlat (G : Graph) (uci : String) : Option (List ℝ) :=
  match treeBlocks G uci with
  | none => none
  | some (b1, b2, bs) =>
    some ([if b1 then 1 else 0, if b2 then 1 else 0] ++ bs.flatten)

/-- One move's feature row assembled over its (weight, tree-size) slots: for a
tree that parses, its 398-length segment is appended; a failed parse hits
`except ... continue`, appending nothing. -/
noncomputable def parse_row (uci : String) : List (Option Graph) → List ℝ
  | [] => []
  | og :: rest =>
    (match og with
     | none => ([] : List ℝ)
     | some G =>
       match treeFeaturesFlat G uci with
       | none => []
       | some fs => fs) ++ parse_row uci rest

/-- Normalization of one feature row: `X = X - mean` on every column, then
`X[:, std>0] = X[:, std>0] / std[std>0]` divides only where the stored
standard deviation is positive. -/
def normalizeRow (x mean std : List ℚ) : List ℚ :=
  (x.zip (mean.zip std)).map
    (fun p => if 0 < p.2.2 then (p.1 - p.2.1) / p.2.2 else p.1 - p.2.1)

/-! ### Feature Indexer layout (claim C1) -/

lemma blockOffs00 : (blockArgs 0 0).map offs = List.range' 0 398 := by decide

lemma blockOffs01 : (blockArgs 0 1).map offs = List.range' 398 398 := by decide

lemma blockOffs02 : (blockArgs 0 2).map offs = List.range' 796 398 := by decide

lemma blockOffs03 : (blockArgs 0 3).map offs = List.range' 1194 398 := by decide

lemma blockOffs04 : (blockArgs 0 4).map offs = List.range' 1592 398 := by decide

lemma blockOffs10 : (blockArgs 1 0).map offs = List.range' 1990 398 := by decide

lemma blockOffs11 : (blockArgs 1 1).map offs = List.range' 2388 398 := by decide

lemma blockOffs12 : (blockArgs 1 2).map offs = List.range' 2786 398 := by decide

lemma blockOffs13 : (blockArgs 1 3).map offs = List.range' 3184 398 := by decide

lemma blockOffs14 : (blockArgs 1 4).map offs = List.range' 3582 398 := by decide

/-- Enumerated in block order, the Feature Indexer's offsets are exactly
`0, 1, ..., 3979`. -/
lemma allOffsets_eq_range : allOffsets = List.range 3980 := by
  have hr2 : List.range 2 = [0, 1] := rfl
  have hr5 : List.range 5 = [0, 1, 2, 3, 4] := rfl
  have m1 : List.range' 3184 398 ++ List.range' 3582 398 = List.range' 3184 796 := by
    have h := List.range'_append_1 3184 398 398; norm_num at h; exact h
  have m2 : List.range' 2786 398 ++ List.range' 3184 796 = List.range' 2786 1194 := by
    have h := List.range'_append_1 2786 398 796; norm_num at h; exact h
  have m3 : List.range' 2388 398 ++ List.range' 2786 1194 = List.range' 2388 1592 := by
    have h := List.range'_append_1 2388 398 1194; norm_num at h; exact h
  have m4 : List.range' 1990 398 ++ List.range' 2388 1592 = List.range' 1990 1990 := by
    have h := List.range'_append_1 1990 398 1592; norm_num at h; exact h
  have m5 : List.range' 1592 398 ++ List.range' 1990 1990 = List.range' 1592 2388 := by
    have h := List.range'_append_1 1592 398 1990; norm_num at h; exact h
  have m6 : List.range' 1194 398 ++ List.range' 1592 2388 = List.range' 1194 2786 := by
    have h := List.range'_append_1 1194 398 2388; norm_num at h; exact h
  have m7 : List.range' 796 398 ++ List.range' 1194 2786 = List.range' 796 3184 := by
    have h := List.range'_append_1 796 398 2786; norm_num at h; exact h
  have m8 : List.range' 398 398 ++ List.range' 796 3184 = List.range' 398 3582 := by
    have h := List.range'_append_1 398 398 3184; norm_num at h; exact h
  have m9 : List.range' 0 398 ++ List.range' 398 3582 = List.range' 0 3980 := by
    have h := List.range'_append_1 0 398 3582; norm_num at h; exact h
  rw [allOffsets, validIndexerArgs]
  simp only [hr2, hr5, List.flatMap_cons, List.flatMap_nil, List.append_nil, List.map_append]
  rw [blockOffs00, blockOffs01, blockOffs02, blockOffs03, blockOffs04,
      blockOffs10, blockOffs11, blockOffs12, blockOffs13, blockOffs14]
  rw [List.range_eq_range']
  simp only [List.append_assoc]
  rw [m1, m2, m3, m4, m5, m6, m7, m8, m9]

/-- Claim C1: over all valid Feature Indexer argument combinations — weight
0..1, tree-size 0..4, and either a direct index 0..1, a subtree 0..1 with
feature index 0..21, or a subtree 2..5 with aggregation 0..3 and feature
index 0..21 — the computed offsets are pairwise distinct and their image is
exactly the interval `[0, 3980)`. -/
theorem index_flat_offsets_complete :
    allOffsets.Nodup ∧ ∀ n, n ∈ allOffsets ↔ n < 3980 := by
  rw [allOffsets_eq_range]
  exact ⟨List.nodup_range 3980, fun n => List.mem_range⟩

/-! ### Successor-loop characterization -/

def succMatches (G : Graph) (uci : String) (i : ℕ) : Bool :=
  match G.node? i with
  | some n => decide (n.move = some uci)
  | none => false

def succImproving (G : Graph) (rootQ : ℚ) (i : ℕ) : Bool :=
  match G.node? i with
  | some n => decide (n.Q - (-rootQ) > 0)
  | none => false

def succAdv (G : Graph) (i : ℕ) : Bool :=
  match G.node? i with
  | some n => decide (n.Q > 0)
  | none => false

def qOf (G : Graph) (i : ℕ) : ℚ := ((G.node? i).map GNode.Q).getD 0

def lastMatch (p : ℕ → Bool) : List ℕ → Option ℕ → Option ℕ
  | [], acc => acc
  | i :: rest, acc => lastMatch p rest (if p i then some i else acc)

lemma loopStep_improving (G : Graph) (uci : String) (rootQ : ℚ) (st : LoopState) (i : ℕ)
    (st' : LoopState) (h : loopStep G uci rootQ st i = some st') :
    st'.improving_moves =
      if succMatches G uci i = false ∧ succImproving G rootQ i = true
      then st.improving_moves ++ [i] else st.improving_moves := by
  cases hnode : G.node? i with
  | none => simp [loopStep, hnode] at h
  | some n =>
    cases hP : n.P with
    | none => simp [loopStep, hnode, hP] at h
    | some p =>
      cases hmv : n.move with
      | none => simp [loopStep, hnode, hP, hmv] at h
      | some mv =>
        simp only [loopStep, hnode, hP, hmv] at h
        simp only [succMatches, succImproving, hnode, hmv]
        by_cases hm : mv = uci
        · simp only [if_pos hm] at h
          obtain rfl : _ = st' := Option.some.inj h
          simp [hm]
        · simp only [if_neg hm] at h
          obtain rfl : _ = st' := Option.some.inj h
          by_cases himp : n.Q - (-rootQ) > 0
          · simp [hm, himp]
          · simp [hm, himp]

lemma loopStep_losing (G : Graph) (uci : String) (rootQ : ℚ) (st : LoopState) (i : ℕ)
    (st' : LoopState) (h : loopStep G uci rootQ st i = some st') :
    st'.losing_moves =
      if succMatches G uci i = false ∧ (!succImproving G rootQ i) = true
      then st.losing_moves ++ [i] else st.losing_moves := by
  cases hnode : G.node? i with
  | none => simp [loopStep, hnode] at h
  | some n =>
    cases hP : n.P with
    | none => simp [loopStep, hnode, hP] at h
    | some p =>
      cases hmv : n.move with
      | none => simp [loopStep, hnode, hP, hmv] at h
      | some mv =>
        simp only [loopStep, hnode, hP, hmv] at h
        simp only [succMatches, succImproving, hnode, hmv]
        by_cases hm : mv = uci
        · simp only [if_pos hm] at h
          obtain rfl : _ = st' := Option.some.inj h
          simp [hm]
        · simp only [if_neg hm] at h
          obtain rfl : _ = st' := Option.some.inj h
          by_cases himp : 0 < n.Q + rootQ
          · simp [hm, himp, (not_le.mpr himp : ¬(n.Q + rootQ ≤ 0))]
          · simp [hm, himp, (not_lt.mp himp : n.Q + rootQ ≤ 0)]

lemma loopStep_adv (G : Graph) (uci : String) (rootQ : ℚ) (st : LoopState) (i : ℕ)
    (st' : LoopState) (h : loopStep G uci rootQ st i = some st') :
    st'.adv_moves =
      if succMatches G uci i = false ∧ succAdv G i = true
      then st.adv_moves ++ [i] else st.adv_moves := by
  cases hnode : G.node? i with
  | none => simp [loopStep, hnode] at h
  | some n =>
    cases hP : n.P with
    | none => simp [loopStep, hnode, hP] at h
    | some p =>
      cases hmv : n.move with
      | none => simp [loopStep, hnode, hP, hmv] at h
      | some mv =>
        simp only [loopStep, hnode, hP, hmv] at h
        simp only [succMatches, succAdv, hnode, hmv]
        by_cases hm : mv = uci
        · simp only [if_pos hm] at h
          obtain rfl : _ = st' := Option.some.inj h
          simp [hm]
        · simp only [if_neg hm] at h
          obtain rfl : _ = st' := Option.some.inj h
          by_cases hadv : n.Q > 0
          · simp [hm, hadv]
          · simp [hm, hadv]

lemma loopStep_disadv (G : Graph) (uci : String) (rootQ : ℚ) (st : LoopState) (i : ℕ)
    (st' : LoopState) (h : loopStep G uci rootQ st i = some st') :
    st'.disadv_moves =
      if succMatches G uci i = false ∧ (!succAdv G i) = true
      then st.disadv_moves ++ [i] else st.disadv_moves := by
  cases hnode : G.node? i with
  | none => simp [loopStep, hnode] at h
  | some n =>
    cases hP : n.P with
    | none => simp [loopStep, hnode, hP] at h
    | some p =>
      cases hmv : n.move with
      | none => simp [loopStep, hnode, hP, hmv] at h
      | some mv =>
        simp only [loopStep, hnode, hP, hmv] at h
        simp only [succMatches, succAdv, hnode, hmv]
        by_cases hm : mv = uci
        · simp only [if_pos hm] at h
          obtain rfl : _ = st' := Option.some.inj h
          simp [hm]
        · simp only [if_neg hm] at h
          obtain rfl : _ = st' := Option.some.inj h
          by_cases hadv : 0 < n.Q
          · simp [hm, hadv, (not_le.mpr hadv : ¬(n.Q ≤ 0))]
          · simp [hm, hadv, (not_lt.mp hadv : n.Q ≤ 0)]

lemma loopStep_move_node (G : Graph) (uci : String) (rootQ : ℚ) (st : LoopState) (i : ℕ)
    (st' : LoopState) (h : loopStep G uci rootQ st i = some st') :
    st'.move_node = if succMatches G uci i = true then some i else st.move_node := by
  cases hnode : G.node? i with
  | none => simp [loopStep, hnode] at h
  | some n =>
    cases hP : n.P with
    | none => simp [loopStep, hnode, hP] at h
    | some p =>
      cases hmv : n.move with
      | none => simp [loopStep, hnode, hP, hmv] at h
      | some mv =>
        simp only [loopStep, hnode, hP, hmv] at h
        simp only [succMatches, hnode, hmv]
        by_cases hm : mv = uci
        · simp only [if_pos hm] at h
          obtain rfl : _ = st' := Option.some.inj h
          simp [hm]
        · simp only [if_neg hm] at h
          obtain rfl : _ = st' := Option.some.inj h
          simp [hm]

lemma loopStep_max_Q (G : Graph) (uci : String) (rootQ : ℚ) (st : LoopState) (i : ℕ)
    (st' : LoopState) (h : loopStep G uci rootQ st i = some st') :
    st'.max_Q = max st.max_Q (qOf G i) := by
  cases hnode : G.node? i with
  | none => simp [loopStep, hnode] at h
  | some n =>
    cases hP : n.P with
    | none => simp [loopStep, hnode, hP] at h
    | some p =>
      cases hmv : n.move with
      | none => simp [loopStep, hnode, hP, hmv] at h
      | some mv =>
        simp only [loopStep, hnode, hP, hmv] at h
        have hq : qOf G i = n.Q := by simp [qOf, hnode]
        have hmax : (if n.Q > st.max_Q then n.Q else st.max_Q) = max st.max_Q n.Q := by
          rcases lt_or_le st.max_Q n.Q with hlt | hle
          · rw [if_pos hlt, max_eq_right hlt.le]
          · rw [if_neg (not_lt.mpr hle), max_eq_left hle]
        by_cases hm : mv = uci
        · simp only [if_pos hm] at h
          obtain rfl : _ = st' := Option.some.inj h
          simp [hq, hmax]
        · simp only [if_neg hm] at h
          obtain rfl : _ = st' := Option.some.inj h
          simp [hq, hmax]

lemma loopStep_lookup (G : Graph) (uci : String) (rootQ : ℚ) (st : LoopState) (i : ℕ)
    (st' : LoopState) (h : loopStep G uci rootQ st i = some st') :
    ∃ n pp mv, G.node? i = some n ∧ n.P = some pp ∧ n.move = some mv := by
  cases hnode : G.node? i with
  | none => simp [loopStep, hnode] at h
  | some n =>
    cases hP : n.P with
    | none => simp [loopStep, hnode, hP] at h
    | some p =>
      cases hmv : n.move with
      | none => simp [loopStep, hnode, hP, hmv] at h
      | some mv => exact ⟨n, p, mv, rfl, hP, hmv⟩

lemma loopGo_mem (G : Graph) (uci : String) (rootQ : ℚ)
    (proj : LoopState → List ℕ) (cond : ℕ → Bool)
    (hstep : ∀ st i st', loopStep G uci rootQ st i = some st' →
      proj st' = if succMatches G uci i = false ∧ cond i = true
                 then proj st ++ [i] else proj st) :
    ∀ (l : List ℕ) (st stF : LoopState), loopGo G uci rootQ l st = some stF →
      ∀ j, j ∈ proj stF ↔
        j ∈ proj st ∨ (j ∈ l ∧ succMatches G uci j = false ∧ cond j = true) := by
  intro l
  induction l with
  | nil =>
    intro st stF h j
    obtain rfl : st = stF := Option.some.inj h
    simp
  | cons i rest ih =>
    intro st stF h j
    rw [loopGo] at h
    cases hstep1 : loopStep G uci rootQ st i with
    | none => rw [hstep1] at h; exact absurd h (by simp)
    | some st1 =>
      rw [hstep1] at h
      have IH := ih st1 stF h j
      rw [hstep st i st1 hstep1] at IH
      by_cases hC : succMatches G uci i = false ∧ cond i = true
      · rw [if_pos hC] at IH
        rw [IH]
        simp only [List.mem_append, List.mem_cons, List.not_mem_nil, or_false]
        constructor
        · rintro ((hmem | rfl) | ⟨hr, hM, hc⟩)
          · exact Or.inl hmem
          · exact Or.inr ⟨Or.inl rfl, hC.1, hC.2⟩
          · exact Or.inr ⟨Or.inr hr, hM, hc⟩
        · rintro (hmem | ⟨rfl | hr, hM, hc⟩)
          · exact Or.inl (Or.inl hmem)
          · exact Or.inl (Or.inr rfl)
          · exact Or.inr ⟨hr, hM, hc⟩
      · rw [if_neg hC] at IH
        rw [IH]
        simp only [List.mem_cons]
        constructor
        · rintro (hmem | ⟨hr, hM, hc⟩)
          · exact Or.inl hmem
          · exact Or.inr ⟨Or.inr hr, hM, hc⟩
        · rintro (hmem | ⟨rfl | hr, hM, hc⟩)
          · exact Or.inl hmem
          · exact absurd ⟨hM, hc⟩ hC
          · exact Or.inr ⟨hr, hM, hc⟩

lemma loopGo_move_node (G : Graph) (uci : String) (rootQ : ℚ) :
    ∀ (l : List ℕ) (st stF : LoopState), loopGo G uci rootQ l st = some stF →
      stF.move_node = lastMatch (succMatches G uci) l st.move_node := by
  intro l
  induction l with
  | nil =>
    intro st stF h
    obtain rfl : st = stF := Option.some.inj h
    rfl
  | cons i rest ih =>
    intro st stF h
    rw [loopGo] at h
    cases hstep1 : loopStep G uci rootQ st i with
    | none => rw [hstep1] at h; exact absurd h (by simp)
    | some st1 =>
      rw [hstep1] at h
      rw [lastMatch, ← loopStep_move_node G uci rootQ st i st1 hstep1]
      · exact ih st1 stF h

lemma loopGo_max_Q (G : Graph) (uci : String) (rootQ : ℚ) :
    ∀ (l : List ℕ) (st stF : LoopState), loopGo G uci rootQ l st = some stF →
      stF.max_Q = l.foldl (fun q i => max q (qOf G i)) st.max_Q := by
  intro l
  induction l with
  | nil =>
    intro st stF h
    obtain rfl : st = stF := Option.some.inj h
    rfl
  | cons i rest ih =>
    intro st stF h
    rw [loopGo] at h
    cases hstep1 : loopStep G uci rootQ st i with
    | none => rw [hstep1] at h; exact absurd h (by simp)
    | some st1 =>
      rw [hstep1] at h
      rw [List.foldl_cons, ← loopStep_max_Q G uci rootQ st i st1 hstep1]
      exact ih st1 stF h

lemma loopGo_lookup (G : Graph) (uci : String) (rootQ : ℚ) :
    ∀ (l : List ℕ) (st stF : LoopState), loopGo G uci rootQ l st = some stF →
      ∀ j ∈ l, ∃ n pp mv, G.node? j = some n ∧ n.P = some pp ∧ n.move = some mv := by
  intro l
  induction l with
  | nil => intro st stF _ j hj; exact absurd hj (by simp)
  | cons i rest ih =>
    intro st stF h j hj
    rw [loopGo] at h
    cases hstep1 : loopStep G uci rootQ st i with
    | none => rw [hstep1] at h; exact absurd h (by simp)
    | some st1 =>
      rw [hstep1] at h
      rcases List.mem_cons.mp hj with rfl | hr
      · exact loopStep_lookup G uci rootQ st j st1 hstep1
      · exact ih st1 stF h j hr

lemma foldl_max_le_iff (f : ℕ → ℚ) (l : List ℕ) (b c : ℚ) :
    l.foldl (fun q i => max q (f i)) b ≤ c ↔ b ≤ c ∧ ∀ i ∈ l, f i ≤ c := by
  induction l generalizing b with
  | nil => simp
  | cons i rest ih =>
    rw [List.foldl_cons, ih]
    simp only [max_le_iff, List.mem_cons]
    constructor
    · rintro ⟨⟨hb, hf⟩, hrest⟩
      refine ⟨hb, ?_⟩
      rintro x (rfl | hx)
      · exact hf
      · exact hrest x hx
    · rintro ⟨hb, hall⟩
      exact ⟨⟨hb, hall i (Or.inl rfl)⟩, fun x hx => hall x (Or.inr hx)⟩

lemma lastMatch_eq_some (p : ℕ → Bool) :
    ∀ (l : List ℕ) (acc : Option ℕ) (j : ℕ), lastMatch p l acc = some j →
      (j ∈ l ∧ p j = true) ∨ acc = some j := by
  intro l
  induction l with
  | nil => intro acc j h; exact Or.inr h
  | cons i rest ih =>
    intro acc j h
    rw [lastMatch] at h
    rcases ih _ j h with ⟨hmem, hp⟩ | hacc
    · exact Or.inl ⟨List.mem_cons_of_mem i hmem, hp⟩
    · by_cases hpi : p i = true
      · rw [if_pos hpi] at hacc
        obtain rfl : i = j := Option.some.inj hacc
        exact Or.inl ⟨List.mem_cons_self i rest, hpi⟩
      · rw [if_neg hpi] at hacc
        exact Or.inr hacc

lemma lastMatch_eq_reverse_find? (p : ℕ → Bool) :
    ∀ (l : List ℕ) (acc : Option ℕ),
      lastMatch p l acc = (l.reverse.find? p).or acc := by
  intro l
  induction l with
  | nil => intro acc; rfl
  | cons i rest ih =>
    intro acc
    rw [lastMatch, ih, List.reverse_cons, List.find?_append]
    cases hfr : rest.reverse.find? p with
    | some x => simp
    | none =>
      simp only [Option.none_or, Option.or]
      cases hpi : p i <;> simp [List.find?, hpi]

lemma get_subtree_data_inv (G : Graph) (uci : String) (root : ℕ) (e : SubtreeData)
    (h : get_subtree_data G uci root = some e) :
    ∃ rn st, G.node? root = some rn ∧
      loopGo G uci rn.Q (succs G root) initLoopState = some st ∧
      e.improving_moves = st.improving_moves ∧ e.adv_moves = st.adv_moves ∧
      e.losing_moves = st.losing_moves ∧ e.disadv_moves = st.disadv_moves ∧
      e.move_node = st.move_node ∧ e.max_Q = st.max_Q ∧
      e.width = widthList G root ∧ e.height = heightZ G root ∧
      ((st.move_node = none ∧ e.move_is_best = false) ∨
       (∃ m nm, st.move_node = some m ∧ G.node? m = some nm ∧
        e.move_is_best = decide (st.max_Q ≤ nm.Q))) := by
  rw [get_subtree_data] at h
  split at h
  · exact absurd h (by simp)
  · rename_i rn hroot
    split at h
    · exact absurd h (by simp)
    · rename_i st hloop
      refine ⟨rn, st, hroot, hloop, ?_⟩
      split at h
      · rename_i hmn
        obtain rfl : mkData G root rn st false = e := Option.some.inj h
        exact ⟨rfl, rfl, rfl, rfl, rfl, rfl, rfl, rfl, Or.inl ⟨hmn, rfl⟩⟩
      · rename_i m hmn
        split at h
        · exact absurd h (by simp)
        · rename_i nm hm
          obtain rfl : mkData G root rn st (decide (st.max_Q ≤ nm.Q)) = e :=
            Option.some.inj h
          exact ⟨rfl, rfl, rfl, rfl, rfl, rfl, rfl, rfl, Or.inr ⟨m, nm, hmn, hm, rfl⟩⟩

/-! ### Concrete example graphs -/

/-- A single-node graph: just the root, no successors. -/
def Gsolo : Graph :=
  { nodes := [(0, { N := 1, Q := 0, P := none, move := none })], edges := [] }

/-- Extraction result on `Gsolo` for move "mm". -/
def soloData : SubtreeData :=
  { improving_moves := [], adv_moves := [], losing_moves := [], disadv_moves := []
    move_node := none, max_Q := -1, max_P := 0, max_N := 0
    root_Q := 0, root_P := 0, root_N := 1
    bf := -1, width := [1], height := 0, move_is_best := false }

lemma Gsolo_eval : get_subtree_data Gsolo "mm" 0 = some soloData := by decide

/-- Root with two children: child 1 carries the move of interest "mm" with the
best value, child 2 a different move with a losing value. -/
def Gbest : Graph :=
  { nodes := [(0, { N := 1, Q := 0, P := none, move := none }),
              (1, { N := 5, Q := 1, P := some 0, move := some "mm" }),
              (2, { N := 3, Q := -1, P := some 0, move := some "aa" })]
    edges := [(0, 1), (0, 2)] }

/-- Extraction result on `Gbest` for move "mm". -/
def bestData : SubtreeData :=
  { improving_moves := [], adv_moves := [], losing_moves := [2], disadv_moves := [2]
    move_node := some 1, max_Q := 1, max_P := 0, max_N := 5
    root_Q := 0, root_P := 0, root_N := 1
    bf := 1 / 2, width := [1, 2], height := 1, move_is_best := true }

lemma Gbest_eval : get_subtree_data Gbest "mm" 0 = some bestData := by
  have h1 : leavesCount Gbest 0 = 2 := by decide
  have h2 : (gDescendants Gbest 0).card = 2 := by decide
  have h3 : widthList Gbest 0 = [1, 2] := by decide
  have h4 : heightZ Gbest 0 = 1 := by decide
  have h5 : succs Gbest 0 = [1, 2] := by decide
  have hbf : bfVal Gbest 0 = 1 / 2 := by rw [bfVal, h1, h2]; norm_num
  have hn0 : Graph.node? Gbest 0 = some { N := 1, Q := 0, P := none, move := none } := rfl
  have hn1 : Graph.node? Gbest 1 = some { N := 5, Q := 1, P := some 0, move := some "mm" } := rfl
  have hn2 : Graph.node? Gbest 2 = some { N := 3, Q := -1, P := some 0, move := some "aa" } := rfl
  have hs2 : ¬(("aa" : String) = "mm") := by decide
  rw [get_subtree_data, hn0, h5]
  norm_num [loopGo, loopStep, initLoopState, mkData, hn1, hn2, h3, h4, hbf, bestData, hs2]

/-- Root with two children that both carry the move of interest "mm". -/
def Gdup : Graph :=
  { nodes := [(0, { N := 1, Q := 0, P := none, move := none }),
              (1, { N := 5, Q := 1, P := some 0, move := some "mm" }),
              (2, { N := 3, Q := 1, P := some 0, move := some "mm" })]
    edges := [(0, 1), (0, 2)] }

/-- Extraction result on `Gdup` for move "mm": the recorded move-of-interest
node is the last matching successor, node 2. -/
def dupData : SubtreeData :=
  { improving_moves := [], adv_moves := [], losing_moves := [], disadv_moves := []
    move_node := some 2, max_Q := 1, max_P := 0, max_N := 5
    root_Q := 0, root_P := 0, root_N := 1
    bf := 1 / 2, width := [1, 2], height := 1, move_is_best := true }

lemma Gdup_eval : get_subtree_data Gdup "mm" 0 = some dupData := by
  have h1 : leavesCount Gdup 0 = 2 := by decide
  have h2 : (gDescendants Gdup 0).card = 2 := by decide
  have h3 : widthList Gdup 0 = [1, 2] := by decide
  have h4 : heightZ Gdup 0 = 1 := by decide
  have h5 : succs Gdup 0 = [1, 2] := by decide
  have hbf : bfVal Gdup 0 = 1 / 2 := by rw [bfVal, h1, h2]; norm_num
  have hn0 : Graph.node? Gdup 0 = some { N := 1, Q := 0, P := none, move := none } := rfl
  have hn1 : Graph.node? Gdup 1 = some { N := 5, Q := 1, P := some 0, move := some "mm" } := rfl
  have hn2 : Graph.node? Gdup 2 = some { N := 3, Q := 1, P := some 0, move := some "mm" } := rfl
  rw [get_subtree_data, hn0, h5]
  norm_num [loopGo, loopStep, initLoopState, mkData, hn1, hn2, h3, h4, hbf, dupData]

/-- Root with one child that carries a different move than the one queried. -/
def Gft : Graph :=
  { nodes := [(0, { N := 1, Q := 0, P := none, move := none }),
              (1, { N := 7, Q := 1, P := some 0, move := some "aa" })]
    edges := [(0, 1)] }

/-- Extraction result on `Gft` for move "mm" (not present in the tree). -/
def ftData : SubtreeData :=
  { improving_moves := [1], adv_moves := [1], losing_moves := [], disadv_moves := []
    move_node := none, max_Q := 1, max_P := 0, max_N := 7
    root_Q := 0, root_P := 0, root_N := 1
    bf := 0, width := [1, 1], height := 1, move_is_best := false }

lemma Gft_eval : get_subtree_data Gft "mm" 0 = some ftData := by
  have h1 : leavesCount Gft 0 = 1 := by decide
  have h2 : (gDescendants Gft 0).card = 1 := by decide
  have h3 : widthList Gft 0 = [1, 1] := by decide
  have h4 : heightZ Gft 0 = 1 := by decide
  have h5 : succs Gft 0 = [1] := by decide
  have hbf : bfVal Gft 0 = 0 := by rw [bfVal, h1, h2]; norm_num
  have hn0 : Graph.node? Gft 0 = some { N := 1, Q := 0, P := none, move := none } := rfl
  have hn1 : Graph.node? Gft 1 = some { N := 7, Q := 1, P := some 0, move := some "aa" } := rfl
  have hs2 : ¬(("aa" : String) = "mm") := by decide
  rw [get_subtree_data, hn0, h5]
  norm_num [loopGo, loopStep, initLoopState, mkData, hn1, h3, h4, hbf, ftData, hs2]

/-! ### Subtree classification (claims C6, C8, C9) -/

/-- Claim C6 counterexample: in `Gdup` both successors carry the move of
interest; the recorded move-of-interest node is 2, and successor 1 — distinct
from the recorded node — appears in none of the four classification sets, so
the unions do not equal the successor set minus the recorded node. -/
theorem classification_counter :
    get_subtree_data Gdup "mm" 0 = some dupData ∧
    dupData.move_node = some 2 ∧ (1 : ℕ) ∈ succs Gdup 0 ∧ (1 : ℕ) ≠ 2 ∧
    1 ∉ dupData.improving_moves ∧ 1 ∉ dupData.losing_moves ∧
    1 ∉ dupData.adv_moves ∧ 1 ∉ dupData.disadv_moves :=
  ⟨Gdup_eval, rfl, by decide, by decide, by decide, by decide, by decide, by decide⟩

/-- Claim C6 (amended): for every successful extraction, each successor whose
`move` differs from the move of interest lies in exactly one of
improving/losing and exactly one of advantageous/disadvantageous, and each of
the two unions equals the successor set minus all successors whose `move`
equals the move of interest. -/
theorem classification_partitions (G : Graph) (uci : String) (root : ℕ) (e : SubtreeData)
    (h : get_subtree_data G uci root = some e) :
    (∀ i, (i ∈ e.improving_moves ∨ i ∈ e.losing_moves) ↔
      (i ∈ succs G root ∧ succMatches G uci i = false)) ∧
    (∀ i, (i ∈ e.adv_moves ∨ i ∈ e.disadv_moves) ↔
      (i ∈ succs G root ∧ succMatches G uci i = false)) ∧
    (∀ i, ¬(i ∈ e.improving_moves ∧ i ∈ e.losing_moves)) ∧
    (∀ i, ¬(i ∈ e.adv_moves ∧ i ∈ e.disadv_moves)) := by
  obtain ⟨rn, st, hroot, hloop, himp, hadv, hlos, hdis, -, -, -, -, -⟩ :=
    get_subtree_data_inv G uci root e h
  have Himp := loopGo_mem G uci rn.Q LoopState.improving_moves (succImproving G rn.Q)
    (fun st i st' hs => loopStep_improving G uci rn.Q st i st' hs)
    (succs G root) initLoopState st hloop
  have Hlos := loopGo_mem G uci rn.Q LoopState.losing_moves
    (fun i => !succImproving G rn.Q i)
    (fun st i st' hs => loopStep_losing G uci rn.Q st i st' hs)
    (succs G root) initLoopState st hloop
  have Hadv := loopGo_mem G uci rn.Q LoopState.adv_moves (succAdv G)
    (fun st i st' hs => loopStep_adv G uci rn.Q st i st' hs)
    (succs G root) initLoopState st hloop
  have Hdis := loopGo_mem G uci rn.Q LoopState.disadv_moves (fun i => !succAdv G i)
    (fun st i st' hs => loopStep_disadv G uci rn.Q st i st' hs)
    (succs G root) initLoopState st hloop
  rw [himp, hadv, hlos, hdis]
  refine ⟨?_, ?_, ?_, ?_⟩
  · intro i
    rw [Himp i, Hlos i]
    simp only [initLoopState, List.not_mem_nil, false_or]
    constructor
    · rintro (⟨hs, hM, -⟩ | ⟨hs, hM, -⟩) <;> exact ⟨hs, hM⟩
    · rintro ⟨hs, hM⟩
      cases hI : succImproving G rn.Q i
      · exact Or.inr ⟨hs, hM, by simp [hI]⟩
      · exact Or.inl ⟨hs, hM, rfl⟩
  · intro i
    rw [Hadv i, Hdis i]
    simp only [initLoopState, List.not_mem_nil, false_or]
    constructor
    · rintro (⟨hs, hM, -⟩ | ⟨hs, hM, -⟩) <;> exact ⟨hs, hM⟩
    · rintro ⟨hs, hM⟩
      cases hA : succAdv G i
      · exact Or.inr ⟨hs, hM, by simp [hA]⟩
      · exact Or.inl ⟨hs, hM, rfl⟩
  · intro i
    rw [Himp i, Hlos i]
    simp only [initLoopState, List.not_mem_nil, false_or]
    rintro ⟨⟨-, -, hI⟩, ⟨-, -, hnI⟩⟩
    rw [hI] at hnI
    exact absurd hnI (by decide)
  · intro i
    rw [Hadv i, Hdis i]
    simp only [initLoopState, List.not_mem_nil, false_or]
    rintro ⟨⟨-, -, hA⟩, ⟨-, -, hnA⟩⟩
    rw [hA] at hnA
    exact absurd hnA (by decide)

/-- Claim C6 witness: the amended partition property at the concrete graph
`Gft`, whose single successor does not carry the queried move. -/
theorem classification_partitions_witness :
    get_subtree_data Gft "mm" 0 = some ftData ∧
    ((∀ i, (i ∈ ftData.improving_moves ∨ i ∈ ftData.losing_moves) ↔
      (i ∈ succs Gft 0 ∧ succMatches Gft "mm" i = false)) ∧
    (∀ i, (i ∈ ftData.adv_moves ∨ i ∈ ftData.disadv_moves) ↔
      (i ∈ succs Gft 0 ∧ succMatches Gft "mm" i = false)) ∧
    (∀ i, ¬(i ∈ ftData.improving_moves ∧ i ∈ ftData.losing_moves)) ∧
    (∀ i, ¬(i ∈ ftData.adv_moves ∧ i ∈ ftData.disadv_moves))) :=
  ⟨Gft_eval, classification_partitions Gft "mm" 0 ftData Gft_eval⟩

/-- Claim C9 counterexample: in `Gdup` more than one successor carries the
move of interest; the first match in iteration order is node 1, but the
recorded move-of-interest node is node 2, not node 1. -/
theorem move_node_first_counter :
    get_subtree_data Gdup "mm" 0 = some dupData ∧
    succs Gdup 0 = [1, 2] ∧
    succMatches Gdup "mm" 1 = true ∧ succMatches Gdup "mm" 2 = true ∧
    (succs Gdup 0).find? (succMatches Gdup "mm") = some 1 ∧
    dupData.move_node ≠ some 1 ∧ dupData.move_node = some 2 :=
  ⟨Gdup_eval, by decide, by decide, by decide, by decide, by decide, rfl⟩

/-- Claim C9 (amended): for every successful extraction, the recorded
move-of-interest node is the last matching successor in iteration order
(Python overwrites `move_node` on every match). -/
theorem move_node_last_match (G : Graph) (uci : String) (root : ℕ) (e : SubtreeData)
    (h : get_subtree_data G uci root = some e) :
    e.move_node = (succs G root).reverse.find? (succMatches G uci) := by
  obtain ⟨rn, st, hroot, hloop, -, -, -, -, hmn, -, -, -, -⟩ :=
    get_subtree_data_inv G uci root e h
  rw [hmn, loopGo_move_node G uci rn.Q (succs G root) initLoopState st hloop,
    lastMatch_eq_reverse_find?]
  simp [initLoopState]

/-- Claim C9 witness: the last-match rule at the concrete graph `Gdup`. -/
theorem move_node_last_match_witness :
    get_subtree_data Gdup "mm" 0 = some dupData ∧
    dupData.move_node = (succs Gdup 0).reverse.find? (succMatches Gdup "mm") :=
  ⟨Gdup_eval, move_node_last_match Gdup "mm" 0 dupData Gdup_eval⟩

/-- Are this successor's `Q` values within the engine's value range `[-1,1]`? -/
def Qbounded (G : Graph) (i : ℕ) : Bool :=
  match G.node? i with
  | none => true
  | some n => decide (-1 ≤ n.Q ∧ n.Q ≤ 1)

/-- Claim C8: when the move-of-interest node was found and every successor's
`Q` lies in `[-1, 1]`, the `move_is_best` flag is true iff the recorded node's
`Q` ties or exceeds the `Q` of every other successor of the root. -/
theorem move_is_best_iff (G : Graph) (uci : String) (root : ℕ) (e : SubtreeData)
    (m : ℕ) (nm : GNode)
    (h : get_subtree_data G uci root = some e)
    (hm : e.move_node = some m)
    (hnm : G.node? m = some nm)
    (hQ : ∀ i ∈ succs G root, Qbounded G i = true) :
    (e.move_is_best = true ↔
      ∀ i ∈ succs G root, i ≠ m → ∀ n, G.node? i = some n → n.Q ≤ nm.Q) := by
  obtain ⟨rn, st, hroot, hloop, -, -, -, -, hmn, hmx, -, -, hbest⟩ :=
    get_subtree_data_inv G uci root e h
  have hstm : st.move_node = some m := hmn.symm.trans hm
  rcases hbest with ⟨hnone, -⟩ | ⟨m', nm', hm', hnm', hbesteq⟩
  · rw [hstm] at hnone; exact absurd hnone (by simp)
  · obtain rfl : m = m' := Option.some.inj (hstm.symm.trans hm')
    obtain rfl : nm = nm' := Option.some.inj (hnm.symm.trans hnm')
    have hmem : m ∈ succs G root := by
      have hlm := loopGo_move_node G uci rn.Q (succs G root) initLoopState st hloop
      rw [hstm] at hlm
      rcases lastMatch_eq_some (succMatches G uci) (succs G root)
          initLoopState.move_node m hlm.symm with ⟨hmem, -⟩ | habs
      · exact hmem
      · exact absurd habs (by simp [initLoopState])
    have hQm : -1 ≤ nm.Q ∧ nm.Q ≤ 1 := by
      have hq := hQ m hmem
      simp only [Qbounded, hnm, decide_eq_true_eq] at hq
      exact hq
    have hmax := loopGo_max_Q G uci rn.Q (succs G root) initLoopState st hloop
    have hlookup := loopGo_lookup G uci rn.Q (succs G root) initLoopState st hloop
    rw [hbesteq, decide_eq_true_eq, hmax,
      foldl_max_le_iff (qOf G) (succs G root) initLoopState.max_Q nm.Q]
    constructor
    · rintro ⟨-, hall⟩ i hi hne n hn
      have hle := hall i hi
      rw [qOf, hn] at hle
      simpa using hle
    · intro hother
      constructor
      · simpa [initLoopState] using hQm.1
      · intro i hi
        by_cases hieq : i = m
        · subst hieq
          rw [qOf, hnm]
          simp
        · obtain ⟨n, pp, mv, hn, -, -⟩ := hlookup i hi
          have hle := hother i hi hieq n hn
          rw [qOf, hn]
          simpa using hle

/-- Claim C8 witness: in `Gbest` the move-of-interest node 1 has the top
value, and the flag is characterized at that concrete input. -/
theorem move_is_best_iff_witness :
    get_subtree_data Gbest "mm" 0 = some bestData ∧
    bestData.move_node = some 1 ∧
    Graph.node? Gbest 1 = some { N := 5, Q := 1, P := some 0, move := some "mm" } ∧
    (∀ i ∈ succs Gbest 0, Qbounded Gbest i = true) ∧
    (bestData.move_is_best = true ↔
      ∀ i ∈ succs Gbest 0, i ≠ 1 → ∀ n, Graph.node? Gbest i = some n →
        n.Q ≤ ({ N := 5, Q := 1, P := some 0, move := some "mm" } : GNode).Q) :=
  ⟨Gbest_eval, rfl, rfl, by decide,
    move_is_best_iff Gbest "mm" 0 bestData 1
      { N := 5, Q := 1, P := some 0, move := some "mm" }
      Gbest_eval rfl rfl (by decide)⟩

/-! ### Width profile and reachability (claims C7, C10) -/

lemma reachAt_subset_succ (G : Graph) (root k : ℕ) :
    reachAt G root k ⊆ reachAt G root (k + 1) := by
  rw [reachAt, stepReach]
  exact Finset.subset_union_left

lemma reachAt_mono (G : Graph) (root : ℕ) {k k' : ℕ} (h : k ≤ k') :
    reachAt G root k ⊆ reachAt G root k' := by
  obtain ⟨j, rfl⟩ := Nat.exists_eq_add_of_le h
  clear h
  induction j with
  | zero => exact subset_rfl
  | succ n ih =>
    have hstep : k + (n + 1) = (k + n) + 1 := by omega
    rw [hstep]
    exact ih.trans (reachAt_subset_succ G root (k + n))

lemma root_mem_reachAt_zero (G : Graph) (root : ℕ) : root ∈ reachAt G root 0 := by
  rw [reachAt]; exact Finset.mem_singleton_self root

lemma root_mem_reachable (G : Graph) (root : ℕ) : root ∈ reachable G root :=
  reachAt_mono G root (Nat.zero_le _) (root_mem_reachAt_zero G root)

lemma distTo_root (G : Graph) (root : ℕ) : distTo G root root = some 0 := by
  rw [distTo, List.range_succ_eq_map, List.find?_cons]
  have : decide (root ∈ reachAt G root 0) = true := by
    simp [root_mem_reachAt_zero G root]
  rw [this]

lemma distTo_exists_of_mem (G : Graph) (root v : ℕ) (h : v ∈ reachable G root) :
    ∃ d, distTo G root v = some d ∧ d ≤ graphFuel G := by
  have hsome : ((List.range (graphFuel G + 1)).find?
      (fun k => decide (v ∈ reachAt G root k))).isSome = true := by
    rw [List.find?_isSome]
    exact ⟨graphFuel G, List.mem_range.mpr (Nat.lt_succ_self _), by simpa [reachable] using h⟩
  obtain ⟨d, hd⟩ := Option.isSome_iff_exists.mp hsome
  refine ⟨d, hd, ?_⟩
  have := List.mem_of_find?_eq_some hd
  exact Nat.lt_succ_iff.mp (List.mem_range.mp this)

lemma mem_reachAt_of_distTo (G : Graph) (root v d : ℕ) (h : distTo G root v = some d) :
    v ∈ reachAt G root d ∧ d ≤ graphFuel G := by
  constructor
  · have := List.find?_some h
    simpa using this
  · exact Nat.lt_succ_iff.mp (List.mem_range.mp (List.mem_of_find?_eq_some h))

lemma widthAt_pos_of_distTo (G : Graph) (root v d : ℕ)
    (hv : v ∈ reachable G root) (hd : distTo G root v = some d) :
    0 < widthAt G root d := by
  rw [widthAt]
  exact Finset.card_pos.mpr ⟨v, Finset.mem_filter.mpr ⟨hv, hd⟩⟩

lemma le_foldl_max (l : List ℕ) (b : ℕ) :
    b ≤ l.foldl max b ∧ ∀ a ∈ l, a ≤ l.foldl max b := by
  induction l generalizing b with
  | nil => simp
  | cons i rest ih =>
    rw [List.foldl_cons]
    obtain ⟨h1, h2⟩ := ih (max b i)
    refine ⟨le_trans (le_max_left b i) h1, ?_⟩
    intro a ha
    rcases List.mem_cons.mp ha with rfl | ha'
    · exact le_trans (le_max_right b a) h1
    · exact h2 a ha' 

lemma mem_depthsPresent (G : Graph) (root d : ℕ)
    (hd : d ≤ graphFuel G) (hw : 0 < widthAt G root d) :
    d ∈ depthsPresent G root := by
  rw [depthsPresent, List.mem_filter]
  exact ⟨List.mem_range.mpr (Nat.lt_succ_of_le hd), by simpa using hw⟩

lemma le_heightNat_of_mem (G : Graph) (root d : ℕ) (h : d ∈ depthsPresent G root) :
    d ≤ heightNat G root :=
  (le_foldl_max (depthsPresent G root) 0).2 d h

lemma sum_map_range (n : ℕ) (f : ℕ → ℕ) :
    ((List.range n).map f).sum = ∑ d ∈ Finset.range n, f d := by
  induction n with
  | zero => simp
  | succ k ih => rw [List.range_succ, List.map_append, List.sum_append,
      Finset.sum_range_succ, ih]; simp

/-- The reachable set decomposes into the distance classes of depths up to the
height. -/
lemma reachable_eq_biUnion (G : Graph) (root : ℕ) :
    reachable G root = (Finset.range (heightNat G root + 1)).biUnion
      (fun d => (reachable G root).filter (fun v => distTo G root v = some d)) := by
  apply Finset.Subset.antisymm
  · intro v hv
    obtain ⟨d, hd, hdle⟩ := distTo_exists_of_mem G root v hv
    have hdh : d ≤ heightNat G root :=
      le_heightNat_of_mem G root d
        (mem_depthsPresent G root d hdle (widthAt_pos_of_distTo G root v d hv hd))
    exact Finset.mem_biUnion.mpr
      ⟨d, Finset.mem_range.mpr (Nat.lt_succ_of_le hdh), Finset.mem_filter.mpr ⟨hv, hd⟩⟩
  · intro v hv
    obtain ⟨d, -, hvd⟩ := Finset.mem_biUnion.mp hv
    exact (Finset.mem_filter.mp hvd).1

/-- Claim C7: for every graph and root present in it, the width profile
partitions the reachable set by shortest-path distance: the widths sum to the
number of nodes reachable from the root, the root included; likewise for the
width profile stored in any successful extraction at that root. -/
theorem width_profile_partitions (G : Graph) (root : ℕ)
    (hroot : root ∈ G.nodes.map Prod.fst) :
    (widthList G root).sum = (reachable G root).card ∧
    ∀ uci e, get_subtree_data G uci root = some e →
      e.width.sum = (reachable G root).card := by
  have hdisj : ∀ d ∈ Finset.range (heightNat G root + 1),
      ∀ d' ∈ Finset.range (heightNat G root + 1), d ≠ d' →
      Disjoint ((reachable G root).filter (fun v => distTo G root v = some d))
        ((reachable G root).filter (fun v => distTo G root v = some d')) := by
    intro d _ d' _ hne
    rw [Finset.disjoint_left]
    intro v hv hv'
    have h1 := (Finset.mem_filter.mp hv).2
    have h2 := (Finset.mem_filter.mp hv').2
    exact hne (Option.some.inj (h1.symm.trans h2))
  have hmain : (widthList G root).sum = (reachable G root).card := by
    rw [widthList, sum_map_range, reachable_eq_biUnion G root, Finset.card_biUnion hdisj]
    rfl
  refine ⟨hmain, ?_⟩
  intro uci e h
  obtain ⟨-, -, -, -, -, -, -, -, -, -, hw, -, -⟩ := get_subtree_data_inv G uci root e h
  rw [hw]
  exact hmain

/-- Claim C7 witness: the width profile of the single-node graph. -/
theorem width_profile_partitions_witness :
    0 ∈ Gsolo.nodes.map Prod.fst ∧
    ((widthList Gsolo 0).sum = (reachable Gsolo 0).card ∧
     ∀ uci e, get_subtree_data Gsolo uci 0 = some e →
       e.width.sum = (reachable Gsolo 0).card) :=
  ⟨by decide, width_profile_partitions Gsolo 0 (by decide)⟩

/-- Claim C10: for every graph and root present in it, the width profile maps
depth 0 to a count of at least 1 (the root is at distance 0 from itself), the
set of depths is nonempty, and the height is at least 0 — the `-1` height
sentinel branch is unreachable; likewise for the width and height stored in
any successful extraction at that root. -/
theorem width_zero_positive (G : Graph) (root : ℕ)
    (hroot : root ∈ G.nodes.map Prod.fst) :
    1 ≤ widthAt G root 0 ∧ depthsPresent G root ≠ [] ∧ 0 ≤ heightZ G root ∧
    ∀ uci e, get_subtree_data G uci root = some e →
      1 ≤ e.width.headD 0 ∧ 0 ≤ e.height := by
  have hw0 : 0 < widthAt G root 0 :=
    widthAt_pos_of_distTo G root root 0 (root_mem_reachable G root) (distTo_root G root)
  have hmem0 : 0 ∈ depthsPresent G root :=
    mem_depthsPresent G root 0 (Nat.zero_le _) hw0
  have hne : depthsPresent G root ≠ [] := fun hnil => by
    rw [hnil] at hmem0; exact absurd hmem0 (List.not_mem_nil 0)
  have hh : 0 ≤ heightZ G root := by
    rw [heightZ]
    cases hdp : depthsPresent G root with
    | nil => exact absurd hdp hne
    | cons a l => exact Int.ofNat_nonneg _
  refine ⟨hw0, hne, hh, ?_⟩
  intro uci e h
  obtain ⟨-, -, -, -, -, -, -, -, -, -, hw, hht, -⟩ := get_subtree_data_inv G uci root e h
  constructor
  · rw [hw, widthList, List.range_succ_eq_map]
    simpa using hw0
  · rw [hht]
    exact hh

/-- Claim C10 witness: the depth-0 width and height at the single-node graph. -/
theorem width_zero_positive_witness :
    0 ∈ Gsolo.nodes.map Prod.fst ∧
    (1 ≤ widthAt Gsolo 0 0 ∧ depthsPresent Gsolo 0 ≠ [] ∧ 0 ≤ heightZ Gsolo 0 ∧
     ∀ uci e, get_subtree_data Gsolo uci 0 = some e →
       1 ≤ e.width.headD 0 ∧ 0 ≤ e.height) :=
  ⟨by decide, width_zero_positive Gsolo 0 (by decide)⟩

/-! ### Feature Transformer order (claim C2) and normalization (claim C5) -/

lemma feature_transform_length (d : SubtreeData) : (feature_transform d).length = 22 := by
  have hp : 8 ≤ (paddedWidths d.width).length := by
    rw [paddedWidths, List.length_append, List.length_map, List.length_replicate]
    omega
  simp only [feature_transform, List.length_append, List.length_map, List.length_cons,
    List.length_nil, List.length_take, List.length_drop]
  omega

/-- Claim C2 counterexample: on the extraction from `Gft`, position 4 of the
transformed feature vector holds `max_Q`, not `max_N` (here `max_Q = 1` while
`max_N = 7`). -/
theorem feature_order_counter :
    get_subtree_data Gft "mm" 0 = some ftData ∧
    (feature_transform ftData).getD 4 0 = ((ftData.max_Q : ℚ) : ℝ) ∧
    (feature_transform ftData).getD 4 0 ≠ ((ftData.max_N : ℕ) : ℝ) := by
  refine ⟨Gft_eval, ?_, ?_⟩
  · norm_num [feature_transform, ftData, List.getD]
  · norm_num [feature_transform, ftData, List.getD]

/-- Claim C2 (amended): the Feature Transformer returns a 22-length vector in
the fixed order `[len(improving), len(advantageous), len(losing),
len(disadvantageous), max_Q, max_P, max_N, root_Q, root_P, root_N,
branching_factor, width[1..7] (zero-padded), mean, std, max of the padded
width list, height]` — positions 4, 5, 6 hold `max_Q`, `max_P`, `max_N`. -/
theorem feature_transform_order (d : SubtreeData) :
    (feature_transform d).length = 22 ∧ feature_transform d = featureOrderListed d := by
  refine ⟨feature_transform_length d, ?_⟩
  simp [feature_transform, featureOrderListed, List.append_assoc]

/-- Claim C5 counterexample: normalization subtracts the mean from every
column before the selective division, so the std-0 column yields `5 - 1 = 4`,
not the claimed unchanged `5`. -/
theorem normalization_counter :
    normalizeRow [5, 5] [1, 1] [0, 2] = [4, 2] ∧
    normalizeRow [5, 5] [1, 1] [0, 2] ≠ [5, 2] := by
  have h : normalizeRow [5, 5] [1, 1] [0, 2] = [4, 2] := by
    norm_num [normalizeRow]
  refine ⟨h, ?_⟩
  rw [h]
  decide

/-- Claim C5 (amended): normalization centers every column with `X - mean`
and then divides only the columns with positive stored std, so std-0 columns
are centered but not scaled: with `mean=[1,1]`, `std=[0,2]`, input `[5,5]`,
the output is `[4, 2]`. -/
theorem normalization_amended :
    normalizeRow [5, 5] [1, 1] [0, 2] = [4, 2] ∧
    (∀ x m s : ℚ, normalizeRow [x] [m] [s] =
      [if 0 < s then (x - m) / s else x - m]) := by
  constructor
  · norm_num [normalizeRow]
  · intro x m s; rfl

/-! ### Aggregator sentinels (claim C3) and row assembly (claim C4) -/

/-- The `get_data` bundle on the single-node graph: move absent, all move
subsets empty. -/
def tSolo : TreeData :=
  { parent := soloData, moi := none, impD := [], advD := [], loseD := [], disD := [] }

lemma tSolo_eval : get_data Gsolo "mm" = some tSolo := by decide

/-- Inversion for a successful `get_data` call. -/
lemma get_data_inv (G : Graph) (uci : String) (t : TreeData)
    (h : get_data G uci = some t) :
    get_subtree_data G uci 0 = some t.parent ∧
    (t.parent.move_node = none → t.moi = none) := by
  rw [get_data] at h
  split at h
  · exact absurd h (by simp)
  · rename_i parent hparent
    split at h
    · exact absurd h (by simp)
    · rename_i moi hmoi
      split at h
      · rename_i a b c d ha hb hc hd
        obtain rfl : (⟨parent, moi, a, b, c, d⟩ : TreeData) = t := Option.some.inj h
        refine ⟨hparent, ?_⟩
        intro hnone
        rw [hnone] at hmoi
        exact (Option.some.inj hmoi).symm
      · exact absurd h (by simp)

/-- Claim C3 counterexample: the sentinel `defaults` vector emitted for an
empty move subset carries `-1` at position 4 (the `max_Q` slot) and `0` at
position 10 (the branching-factor slot) and position 21 (the height slot) —
not `-1` at the branching-factor and height slots as claimed. -/
theorem sentinel_defaults_counter :
    (subsetBlocks []).getD 0 [] = defaults ∧
    defaults.getD 4 0 = -1 ∧ defaults.getD 4 0 ≠ 0 ∧
    defaults.getD 10 0 = 0 ∧ defaults.getD 10 0 ≠ -1 ∧
    defaults.getD 21 0 = 0 ∧ defaults.getD 21 0 ≠ -1 := by
  refine ⟨rfl, ?_, ?_, ?_, ?_, ?_, ?_⟩ <;> norm_num [defaults, List.getD, List.replicate]

/-- Claim C3 (amended): whenever the move of interest is absent from a tree
the Aggregator emits the sentinel `defaults` vector once for the
move-of-interest block, and for each empty move subset it emits the sentinel
four times (for mean/std/max/min); the sentinel has 22 fields, all zero
except the `max_Q` slot (position 4) and the `root_Q` slot (position 7),
which hold `-1`. -/
theorem sentinel_defaults (G : Graph) (uci : String) (t : TreeData)
    (h : get_data G uci = some t) :
    (t.parent.move_node = none → moiBlock t.moi = defaults) ∧
    (t.impD = [] → subsetBlocks t.impD = [defaults, defaults, defaults, defaults]) ∧
    (t.advD = [] → subsetBlocks t.advD = [defaults, defaults, defaults, defaults]) ∧
    (t.loseD = [] → subsetBlocks t.loseD = [defaults, defaults, defaults, defaults]) ∧
    (t.disD = [] → subsetBlocks t.disD = [defaults, defaults, defaults, defaults]) ∧
    defaults.length = 22 ∧
    (∀ j, j < 22 → defaults.getD j 0 = if j = 4 ∨ j = 7 then (-1 : ℝ) else 0) := by
  obtain ⟨-, hmoi⟩ := get_data_inv G uci t h
  refine ⟨?_, ?_, ?_, ?_, ?_, ?_, ?_⟩
  · intro hnone; rw [hmoi hnone]; rfl
  · intro hnil; rw [hnil]; rfl
  · intro hnil; rw [hnil]; rfl
  · intro hnil; rw [hnil]; rfl
  · intro hnil; rw [hnil]; rfl
  · rfl
  · intro j hj
    interval_cases j <;> norm_num [defaults, List.getD, List.replicate]

/-- Claim C3 witness: the sentinel behaviour at the single-node graph, where
the move of interest is absent and all four subsets are empty. -/
theorem sentinel_defaults_witness :
    get_data Gsolo "mm" = some tSolo ∧
    ((tSolo.parent.move_node = none → moiBlock tSolo.moi = defaults) ∧
     (tSolo.impD = [] → subsetBlocks tSolo.impD = [defaults, defaults, defaults, defaults]) ∧
     (tSolo.advD = [] → subsetBlocks tSolo.advD = [defaults, defaults, defaults, defaults]) ∧
     (tSolo.loseD = [] → subsetBlocks tSolo.loseD = [defaults, defaults, defaults, defaults]) ∧
     (tSolo.disD = [] → subsetBlocks tSolo.disD = [defaults, defaults, defaults, defaults]) ∧
     defaults.length = 22 ∧
     (∀ j, j < 22 → defaults.getD j 0 = if j = 4 ∨ j = 7 then (-1 : ℝ) else 0)) :=
  ⟨tSolo_eval, sentinel_defaults Gsolo "mm" tSolo tSolo_eval⟩

lemma defaults_length : defaults.length = 22 := rfl

lemma aggBy_length (f : List ℝ → ℝ) (vs : List (List ℝ)) : (aggBy f vs).length = 22 := by
  rw [aggBy, List.length_map, List.length_range]

lemma subsetBlocks_map_length (ds : List SubtreeData) :
    (subsetBlocks ds).map List.length = [22, 22, 22, 22] := by
  cases ds with
  | nil => rfl
  | cons a l =>
    simp only [subsetBlocks, List.map_cons, List.map_nil, aggBy_length]

lemma moiBlock_length (o : Option SubtreeData) : (moiBlock o).length = 22 := by
  cases o with
  | none => rfl
  | some d => exact feature_transform_length d

/-- Inversion for a successful `treeBlocks` call: the 18 blocks in layout
order. -/
lemma treeBlocks_inv (G : Graph) (uci : String) (b1 b2 : Bool) (bs : List (List ℝ))
    (h : treeBlocks G uci = some (b1, b2, bs)) :
    ∃ t, get_data G uci = some t ∧
      bs = [feature_transform t.parent, moiBlock t.moi]
        ++ subsetBlocks t.impD ++ subsetBlocks t.advD
        ++ subsetBlocks t.loseD ++ subsetBlocks t.disD := by
  rw [treeBlocks] at h
  split at h
  · exact absurd h (by simp)
  · rename_i t ht
    have heq := Option.some.inj h
    exact ⟨t, ht, (congrArg (fun p => p.2.2) heq).symm⟩

/-- Every successfully assembled per-tree segment has exactly 398 entries. -/
lemma treeFeaturesFlat_length (G : Graph) (uci : String) (fs : List ℝ)
    (h : treeFeaturesFlat G uci = some fs) : fs.length = 398 := by
  rw [treeFeaturesFlat] at h
  split at h
  · exact absurd h (by simp)
  · rename_i b1 b2 bs hb
    obtain rfl : _ = fs := Option.some.inj h
    obtain ⟨t, -, hbs⟩ := treeBlocks_inv G uci b1 b2 bs hb
    rw [List.length_append, hbs, List.length_flatten]
    simp only [List.map_append, List.map_cons, List.map_nil, subsetBlocks_map_length,
      feature_transform_length, moiBlock_length]
    norm_num

/-- Claim C4 (code-bug evidence): a fully parsed batch of 10 trees yields a
3980-entry row, but when one of the 10 (weight, tree-size) slots fails to
parse the code appends nothing for it — the row ends up with 3582 entries,
not a zero-filled 3980. -/
lemma parse_row_cons_none (uci : String) (rest : List (Option Graph)) :
    parse_row uci (none :: rest) = parse_row uci rest := by
  simp [parse_row]

lemma parse_row_cons_some (uci : String) (G : Graph) (rest : List (Option Graph))
    (fs : List ℝ) (h : treeFeaturesFlat G uci = some fs) :
    parse_row uci (some G :: rest) = fs ++ parse_row uci rest := by
  simp [parse_row, h]

lemma parse_row_append (uci : String) (l1 l2 : List (Option Graph)) :
    parse_row uci (l1 ++ l2) = parse_row uci l1 ++ parse_row uci l2 := by
  induction l1 with
  | nil => simp [parse_row]
  | cons og rest ih => simp [parse_row, ih, List.append_assoc]

/-- Claim C4 (code-bug evidence): a fully parsed batch of 10 trees yields a
3980-entry row, but when one of the 10 (weight, tree-size) slots fails to
parse the code appends nothing for it — the row ends up with 3582 entries,
not a zero-filled 3980. -/
theorem parse_row_bad_length :
    (parse_row "mm" (List.replicate 10 (some Gsolo))).length = 3980 ∧
    (parse_row "mm" (List.replicate 9 (some Gsolo) ++ [none])).length = 3582 ∧
    (3582 : ℕ) ≠ 3980 := by
  have hb : treeBlocks Gsolo "mm" =
      some (tSolo.parent.move_node.isSome, tSolo.parent.move_is_best,
        [feature_transform tSolo.parent, moiBlock tSolo.moi]
        ++ subsetBlocks tSolo.impD ++ subsetBlocks tSolo.advD
        ++ subsetBlocks tSolo.loseD ++ subsetBlocks tSolo.disD) := by
    rw [treeBlocks, tSolo_eval]
  have hf : treeFeaturesFlat Gsolo "mm" =
      some ([if tSolo.parent.move_node.isSome then 1 else 0,
             if tSolo.parent.move_is_best then 1 else 0]
        ++ ([feature_transform tSolo.parent, moiBlock tSolo.moi]
            ++ subsetBlocks tSolo.impD ++ subsetBlocks tSolo.advD
            ++ subsetBlocks tSolo.loseD ++ subsetBlocks tSolo.disD).flatten) := by
    rw [treeFeaturesFlat, hb]
  have hlen := treeFeaturesFlat_length Gsolo "mm" _ hf
  have hrep : ∀ n, (parse_row "mm" (List.replicate n (some Gsolo))).length = 398 * n := by
    intro n
    induction n with
    | zero => rfl
    | succ k ih =>
      rw [List.replicate_succ, parse_row_cons_some "mm" Gsolo _ _ hf,
        List.length_append, ih, hlen]
      ring
  refine ⟨by rw [hrep 10], ?_, by norm_num⟩
  rw [parse_row_append, List.length_append, hrep 9, parse_row_cons_none]
  rfl
